import Mathlib

/-!
Verification of the field-extraction engine of pdf-procuracion
(`src/main.rs`), shallowly embedded in Lean 4.

Rust `String`s are modelled as `List Char` (Lean `Char` and Rust `char`
are both Unicode scalar values).  Byte-indexed slicing (`&s[a..b]`),
which panics in Rust when an index falls inside a multi-byte character,
is modelled by `byteSplitAt`, which returns `none` exactly when the Rust
slice would panic.  Consequently `extraer_monto`, the one extractor that
slices at computed byte offsets, returns `Option (List Char)` with
`none` standing for a panic.

The regular expressions of the source are small (literals, character
classes, `[^,]*`/`[^)]+`/`\d` runs, lazy `.*?`); each one is embedded as
an explicit leftmost-match scanning function mirroring the `regex`
crate's leftmost-first semantics for that pattern.
-/

set_option maxRecDepth 200000
set_option maxHeartbeats 1000000

abbrev Str := List Char

/-- UTF-8 byte length of a string (Rust `str::len`). -/
def utf8Len : Str → Nat
  | [] => 0
  | c :: cs => c.utf8Size + utf8Len cs

/-- Split a string at a byte offset (Rust `&s[..n]` / `&s[n..]`).
Returns `none` when `n` is not a character boundary or exceeds the
length, which is precisely when the Rust slice panics. -/
def byteSplitAt (s : Str) (n : Nat) : Option (Str × Str) :=
  match s, n with
  | s, 0 => some ([], s)
  | [], _ + 1 => none
  | c :: cs, n + 1 =>
    if c.utf8Size ≤ n + 1 then
      (byteSplitAt cs (n + 1 - c.utf8Size)).map (fun pr => (c :: pr.1, pr.2))
    else none

/-- Decimal digit character (`n` is taken mod 10 callers keep it below 10). -/
def digitChar (n : Nat) : Char := Char.ofNat (48 + n % 10)

/-- Auxiliary accumulator loop for `natStr`.  Structural recursion on
a fuel argument so the kernel can evaluate it; `natStr` passes fuel
`n + 1`, which exceeds the number of decimal digits of `n`, so the
out-of-fuel branch is unreachable. -/
def natStrGo (fuel : Nat) (n : Nat) (acc : Str) : Str :=
  match fuel with
  | 0 => acc
  | fuel + 1 =>
    let d := digitChar (n % 10)
    if n / 10 = 0 then d :: acc else natStrGo fuel (n / 10) (d :: acc)

/-- Decimal numeral of a natural number (Rust `u64::to_string`,
`usize::to_string`, and `i32::to_string` on non-negative values). -/
def natStr (n : Nat) : Str := natStrGo (n + 1) n []

/-- Numeric value of a digit string. -/
def digitsVal (s : Str) : Nat := s.foldl (fun a c => a * 10 + (c.toNat - 48)) 0

/-- Parse a non-empty string of ASCII digits (no sign handling: every
call site parses a `\d+` regex capture).  Rust's `FromStr` for the
integer types accepts only ASCII 0-9, so a capture containing a
non-ASCII `\p{Nd}` digit fails to parse, as here. -/
def parseNatDigits (s : Str) : Option Nat :=
  if s ≠ [] ∧ s.all Char.isDigit then some (digitsVal s) else none

/-- Rust `str::parse::<u64>` on a digit string: overflow beyond
`u64::MAX` is an error. -/
def parseU64 (s : Str) : Option Nat :=
  (parseNatDigits s).bind fun n => if n < 2 ^ 64 then some n else none

/-- Rust `str::parse::<i32>`.  Only ever applied to 4-character
strings here, so i32 overflow cannot occur and is not modelled. -/
def parseI32 (s : Str) : Option Int :=
  match s with
  | '+' :: ds => (parseNatDigits ds).map Int.ofNat
  | '-' :: ds => (parseNatDigits ds).map fun n => -(n : Int)
  | ds => (parseNatDigits ds).map Int.ofNat

/-- Case-insensitive character comparison.  The `regex` crate's `(?i)`
uses Unicode simple case folding; for the pattern letters appearing in
this program (e, x, p, t, d, i, n, j, f) simple folding coincides with
ASCII folding, so ASCII `Char.toLower` is faithful here. -/
def ciEq (a b : Char) : Bool := a.toLower == b.toLower

/-- Match a pattern tail against the head of `s` character by character
under the equality `eqc`; on success return the rest of `s`. -/
def prefRestBy (eqc : Char → Char → Bool) : Str → Str → Option Str
  | [], s => some s
  | _ :: _, [] => none
  | p :: ps, c :: cs => if eqc p c then prefRestBy eqc ps cs else none

theorem prefRestBy_length {eqc ps s r} (h : prefRestBy eqc ps s = some r) :
    r.length ≤ s.length := by
  induction ps generalizing s r with
  | nil => simp [prefRestBy] at h; subst h; exact le_rfl
  | cons p ps ih =>
    cases s with
    | nil => simp [prefRestBy] at h
    | cons c cs =>
      simp only [prefRestBy] at h
      split at h
      · exact Nat.le_trans (ih h) (Nat.le_succ _)
      · exact absurd h (by simp)

/-- Fuel-driven loop of `replaceAllBy`: the scan position advances by
at least one character per step, so fuel `s.length` never runs out
(`prefRestBy` returns a suffix of its input). -/
def replaceAllGo (eqc : Char → Char → Bool) (p0 : Char) (ps repl : Str) :
    Nat → Str → Str
  | _, [] => []
  | 0, s => s
  | fuel + 1, c :: cs =>
    if eqc p0 c then
      match prefRestBy eqc ps cs with
      | some rest => repl ++ replaceAllGo eqc p0 ps repl fuel rest
      | none => c :: replaceAllGo eqc p0 ps repl fuel cs
    else c :: replaceAllGo eqc p0 ps repl fuel cs

/-- Non-overlapping replace-all under equality `eqc`, scanning left to
right and resuming after each replacement (Rust `str::replace` with
`eqc = (· == ·)`, `Regex::replace_all` of a literal pattern with
`eqc = ciEq` for `(?i)`).  The pattern is `p0 :: ps` (never empty). -/
def replaceAllBy (eqc : Char → Char → Bool) (p0 : Char) (ps repl : Str) (s : Str) : Str :=
  replaceAllGo eqc p0 ps repl s.length s

/-- Replace the first occurrence of `p0 :: ps` (Rust `str::replacen`
with count 1). -/
def replaceFirst (p0 : Char) (ps repl : Str) : Str → Str
  | [] => []
  | c :: cs =>
    if c == p0 && ps.isPrefixOf cs then repl ++ cs.drop ps.length
    else c :: replaceFirst p0 ps repl cs

/-- Fuel-driven loop of `countSub`; fuel `s.length` suffices since the
scan advances at least one character per step. -/
def countSubGo (p0 : Char) (ps : Str) : Nat → Str → Nat
  | _, [] => 0
  | 0, _ => 0
  | fuel + 1, c :: cs =>
    if c == p0 && ps.isPrefixOf cs then countSubGo p0 ps fuel (cs.drop ps.length) + 1
    else countSubGo p0 ps fuel cs

/-- Count of non-overlapping occurrences of `p0 :: ps`
(Rust `s.matches(pat).count()`). -/
def countSub (p0 : Char) (ps : Str) (s : Str) : Nat :=
  countSubGo p0 ps s.length s

/-- Substring test for a non-empty pattern (Rust `str::contains`). -/
def containsSub (pat : Str) : Str → Bool
  | [] => false
  | c :: cs => pat.isPrefixOf (c :: cs) || containsSub pat cs

/-- The regex crate's `\d`, which is Unicode `\p{Nd}` by default.
Like the other Unicode predicates of this file it is restricted to the
decimal-digit ranges relevant to this document family: ASCII 0-9,
Arabic-Indic (U+0660-0669), Extended Arabic-Indic (U+06F0-06F9) and
Devanagari (U+0966-096F); further Nd ranges exist (the theorems below
do not depend on the exact extent of the class, only that it reaches
beyond ASCII into multi-byte characters). -/
def isNd (c : Char) : Bool :=
  c.isDigit || (0x660 ≤ c.toNat && c.toNat ≤ 0x669) ||
    (0x6F0 ≤ c.toNat && c.toNat ≤ 0x6F9) || (0x966 ≤ c.toNat && c.toNat ≤ 0x96F)

/-- Leftmost match of the regex `<pat>(\d+)`: the literal `pat`
followed by at least one `\d` digit; on success the greedy digit
capture is returned. -/
def findCapAfter (pat : Str) : Str → Option Str
  | [] => none
  | c :: cs =>
    if pat.isPrefixOf (c :: cs) then
      let ds := ((c :: cs).drop pat.length).takeWhile isNd
      if ds = [] then findCapAfter pat cs else some ds
    else findCapAfter pat cs

/-- `[^,]*,` — everything up to and including the first comma;
fails when no comma follows (then the regex cannot complete). -/
def untilComma : Str → Option Str
  | [] => none
  | c :: cs => if c = ',' then some [c] else (untilComma cs).map (c :: ·)

/-- Match, at the current position, one of the patterns
`[Ee][Xx][Pp]<sep>[^,]*,` (`sep` is `-`, `.` or a space); returns the
matched source text. -/
def matchExpVar (sep : Char) (s : Str) : Option Str :=
  match s with
  | c1 :: c2 :: c3 :: c4 :: rest =>
    if ciEq c1 'e' && ciEq c2 'x' && ciEq c3 'p' && (c4 = sep) then
      (untilComma rest).map fun t => c1 :: c2 :: c3 :: c4 :: t
    else none
  | _ => none

/-- Match, at the current position, `[Ee][Jj][Ff]\-[^,]*,`. -/
def matchEjf (s : Str) : Option Str :=
  match s with
  | c1 :: c2 :: c3 :: c4 :: rest =>
    if ciEq c1 'e' && ciEq c2 'j' && ciEq c3 'f' && (c4 = '-') then
      (untilComma rest).map fun t => c1 :: c2 :: c3 :: c4 :: t
    else none
  | _ => none

/-- Try `\d{k}<sep>\d{4}` at the current position for a fixed `k`. -/
def tryDigitsK (sep : Char) (k : Nat) (s : Str) : Option Str :=
  let pre := s.take k
  if pre.length = k ∧ pre.all isNd then
    match s.drop k with
    | c :: rest =>
      let post := rest.take 4
      if c = sep ∧ post.length = 4 ∧ post.all isNd then
        some (pre ++ c :: post)
      else none
    | [] => none
  else none

/-- Match, at the current position, `\d{4,6}<sep>\d{4}` with the greedy
preference of a backtracking engine: 6 digits first, then 5, then 4. -/
def matchDigitsSep (sep : Char) (s : Str) : Option Str :=
  match tryDigitsK sep 6 s with
  | some m => some m
  | none =>
    match tryDigitsK sep 5 s with
    | some m => some m
    | none => tryDigitsK sep 4 s

/-- Leftmost match of a position matcher (`Regex::find`): try every
start position from the left, first success wins. -/
def findFirstMatch (m : Str → Option Str) : Str → Option Str
  | [] => none
  | c :: cs =>
    match m (c :: cs) with
    | some r => some r
    | none => findFirstMatch m cs

/-- The ordered six-pattern search of `extraer_expediente_y_anio`
(first pattern with a match anywhere wins); also reports which pattern
matched (`patron_usado`), the space variant being index 2. -/
def buscarExpediente (t : Str) : Option (Str × Nat) :=
  match findFirstMatch (matchExpVar '-') t with
  | some m => some (m, 0)
  | none =>
  match findFirstMatch (matchExpVar '.') t with
  | some m => some (m, 1)
  | none =>
  match findFirstMatch (matchExpVar ' ') t with
  | some m => some (m, 2)
  | none =>
  match findFirstMatch (matchDigitsSep '-') t with
  | some m => some (m, 3)
  | none =>
  match findFirstMatch (matchDigitsSep '/') t with
  | some m => some (m, 4)
  | none =>
  match findFirstMatch matchEjf t with
  | some m => some (m, 5)
  | none => none

/-- Rust `char::to_uppercase` restricted to its single-character ASCII
action; the multi-character Unicode expansions (e.g. ß) play no role in
the statements proved below. -/
def rustToUpper (c : Char) : Char := c.toUpper

/-- Vocabulary normalization of `extraer_expediente_y_anio`: replace
`(?i)expediente` and then `(?i)Expte\.` by `EXP-`. -/
def normalizarExp (texto : Str) : Str :=
  replaceAllBy ciEq 'e' "xpte.".toList "EXP-".toList
    (replaceAllBy ciEq 'e' "xpediente".toList "EXP-".toList texto)

/-- Truncation step of `extraer_expediente_y_anio` (lines 88-92): a
match of more than 30 characters is cut to its first 25. -/
def acortarExp (e : Str) : Str := if 30 < e.length then e.take 25 else e

/-- Index of the last ASCII digit of the string, if any. -/
def lastDigitIdx : Str → Option Nat
  | [] => none
  | c :: cs =>
    match lastDigitIdx cs with
    | some i => some (i + 1)
    | none => if c.isDigit then some 0 else none

/-- Backward scan to the last ASCII digit, keeping everything up to and
including it; a string with no digit is left unchanged (lines 94-102). -/
def trimToLastDigit (e : Str) : Str :=
  match lastDigitIdx e with
  | some i => e.take (i + 1)
  | none => e

/-- Year extraction (lines 104-117): if the last 4 characters parse to
an integer in `[1990, 2025]` it becomes the year, and on strings of at
least 5 characters the year and its preceding separator are cut off. -/
def extraerAnio (e : Str) : Str × Str :=
  if 4 ≤ e.length then
    match parseI32 (e.drop (e.length - 4)) with
    | some v =>
      if 1990 ≤ v ∧ v ≤ 2025 then
        (if 5 ≤ e.length then e.take (e.length - 5) else e, natStr v.toNat)
      else (e, [' '])
    | none => (e, [' '])
  else (e, [' '])

/-- Literal-noise cleanup (lines 119-125), in source order:
`EXP. Nro.` → `EXP-`, `Nº` → ``, `N°` → ``, `EXP.` → `EXP-`,
`NRO.` → ``. -/
def limpiarTokens (e : Str) : Str :=
  replaceAllBy (· == ·) 'N' "RO.".toList []
    (replaceAllBy (· == ·) 'E' "XP.".toList "EXP-".toList
      (replaceAllBy (· == ·) 'N' "°".toList []
        (replaceAllBy (· == ·) 'N' "º".toList []
          (replaceAllBy (· == ·) 'E' "XP. Nro.".toList "EXP-".toList e))))

/-- Strip one trailing `-` (lines 127-129). -/
def popDash (e : Str) : Str := if e.getLast? = some '-' then e.dropLast else e

/-- Canonical-prefix enforcement (lines 131-135): a duplicated `EXP-`
loses its first occurrence; a string with neither `EXP-` nor `EJF-`
gets `EXP-` prepended. -/
def finalizarExp (e : Str) : Str :=
  if 1 < countSub 'E' "XP-".toList e then replaceFirst 'E' "XP-".toList [] e
  else if containsSub "EXP-".toList e = false ∧ containsSub "EJF-".toList e = false then
    "EXP-".toList ++ e
  else e

/-- `extraer_expediente_y_anio` (lines 44-138). -/
def extraer_expediente_y_anio (texto : Str) (p : Nat) : Str × Str :=
  match buscarExpediente (normalizarExp texto) with
  | none => (natStr (p + 1), [' '])
  | some (m, idx) =>
    let e0 := (m.map rustToUpper).filter (· ≠ ' ')
    let e1 := if idx = 2 then replaceAllBy (· == ·) 'E' "XP".toList [] e0 else e0
    let e2 := acortarExp e1
    let e3 := trimToLastDigit e2
    let pr := extraerAnio e3
    (finalizarExp (popDash (limpiarTokens pr.1)), pr.2)

/-- After `autos\s+`: skip further whitespace up to an opening `"`.
(`\s+` is greedy but, whitespace never being `"`, the first `"` after
the run is the only way the next literal can match.) -/
def wsQuote : Str → Option Str
  | [] => none
  | c :: cs => if c = '"' then some cs else if c.isWhitespace then wsQuote cs else none

/-- Lazy `(.*?)"`: capture up to the first closing `"`; `.` does not
cross a newline. Returns the capture and the rest after the quote. -/
def untilQuote : Str → Option (Str × Str)
  | [] => none
  | c :: cs =>
    if c = '"' then some ([], cs)
    else if c = '\n' then none
    else (untilQuote cs).map fun pr => (c :: pr.1, pr.2)

/-- `\s+` followed by the opening `"`: at least one whitespace
character, then optional further whitespace, then the quote. -/
def wsPlusQuote : Str → Option Str
  | [] => none
  | c :: cs => if c.isWhitespace then wsQuote cs else none

/-- Match `autos\s+"(.*?)"` at the current position; returns the
capture and the rest of the text after the match. -/
def matchAutos (s : Str) : Option (Str × Str) :=
  (prefRestBy (· == ·) "autos".toList s).bind fun rest =>
    (wsPlusQuote rest).bind untilQuote

theorem wsQuote_length {s r} (h : wsQuote s = some r) : r.length < s.length := by
  induction s generalizing r with
  | nil => simp [wsQuote] at h
  | cons c cs ih =>
    simp only [wsQuote] at h
    split at h
    · cases h; simp
    · split at h
      · exact Nat.lt_trans (ih h) (by simp)
      · cases h

theorem untilQuote_length {s g r} (h : untilQuote s = some (g, r)) : r.length < s.length := by
  induction s generalizing g r with
  | nil => simp [untilQuote] at h
  | cons c cs ih =>
    simp only [untilQuote] at h
    split at h
    · cases h; simp
    · split at h
      · cases h
      · cases hu : untilQuote cs with
        | none => rw [hu] at h; cases h
        | some pr =>
          rw [hu] at h
          cases h
          exact Nat.lt_trans (ih (by rw [hu])) (by simp)

theorem wsPlusQuote_length {s r} (h : wsPlusQuote s = some r) : r.length < s.length := by
  cases s with
  | nil => simp [wsPlusQuote] at h
  | cons c cs =>
    simp only [wsPlusQuote] at h
    split at h
    · exact Nat.lt_trans (wsQuote_length h) (by simp)
    · cases h

theorem matchAutos_length {s g r} (h : matchAutos s = some (g, r)) : r.length < s.length := by
  simp only [matchAutos] at h
  cases hp : prefRestBy (· == ·) "autos".toList s with
  | none => rw [hp] at h; cases h
  | some rest =>
    rw [hp, Option.some_bind] at h
    have hr := prefRestBy_length hp
    cases hw : wsPlusQuote rest with
    | none => rw [hw] at h; cases h
    | some w =>
      rw [hw, Option.some_bind] at h
      have h1 := wsPlusQuote_length hw
      have h2 := untilQuote_length h
      omega

/-- Fuel-driven loop of `autosMatches`; fuel `s.length` suffices since
each step either consumes a whole match (`matchAutos_length`) or
advances one character. -/
def autosMatchesGo : Nat → Str → List Str
  | _, [] => []
  | 0, _ => []
  | fuel + 1, c :: cs =>
    match matchAutos (c :: cs) with
    | some (g, rest) => g :: autosMatchesGo fuel rest
    | none => autosMatchesGo fuel cs

/-- All captures of `autos\s+"(.*?)"` in document order
(`captures_iter`): non-overlapping, resuming after each match. -/
def autosMatches (s : Str) : List Str := autosMatchesGo s.length s

/-- `extraer_texto_entre_comillas` (lines 26-41). -/
def extraer_texto_entre_comillas (texto : Str) (p : Nat) : Str :=
  let ms := (autosMatches texto).filter
    fun s => !(s == "ut-supra".toList || s == "ut -supra".toList)
  match ms with
  | [] => natStr (p + 1)
  | c :: _ => c

/-- `[^)]*\)` tail: characters up to the first `)` (consumed). -/
def capParenTail : Str → Option Str
  | [] => none
  | c :: cs => if c = ')' then some [] else (capParenTail cs).map (c :: ·)

/-- `([^)]+)\)`: at least one non-`)` character, then `)`. -/
def capParen : Str → Option Str
  | [] => none
  | c :: cs => if c = ')' then none else (capParenTail cs).map (c :: ·)

/-- Leftmost match of `\(\$([^)]+)\)` (`Regex::captures`), returning
the capture group. -/
def findMontoCapture : Str → Option Str
  | [] => none
  | '(' :: '$' :: rest =>
    match capParen rest with
    | some g => some g
    | none => findMontoCapture ('$' :: rest)
  | _ :: cs => findMontoCapture cs

/-- Trailing cleanup of `extraer_monto` (lines 154-158): strip a
trailing `.-`, else a single trailing `.`.  The stripped suffixes are
ASCII, so the Rust byte slices here always cut on a boundary and are
modelled at character level. -/
def stripTail (m : Str) : Str :=
  if m.drop (m.length - 2) = ['.', '-'] then m.take (m.length - 2)
  else if m.getLast? = some '.' then m.dropLast
  else m

/-- Separator disambiguation of `extraer_monto` (lines 160-188) on the
cleaned amount string.  The two decimal-splitting branches slice at the
byte offsets `len-2` and `len-3` (`monto.len()` is the UTF-8 byte
count) while the branch test inspects the third character from the end;
`none` models the byte-boundary panic. -/
def montoSep (monto : Str) : Option Str :=
  let len := monto.length
  let tercer := monto.getD (len - 3) ' '
  let numPuntos := monto.countP (· = '.')
  let numComas := monto.countP (· = ',')
  if tercer = '.' ∧ 1 < numPuntos then
    (byteSplitAt monto (utf8Len monto - 3)).bind fun pe =>
      (byteSplitAt monto (utf8Len monto - 2)).map fun pd =>
        pe.1.filter (· ≠ '.') ++ '.' :: pd.2
  else if tercer = '.' then some (monto.filter (· ≠ ','))
  else if tercer = ',' ∧ 1 < numComas then
    (byteSplitAt monto (utf8Len monto - 3)).bind fun pe =>
      (byteSplitAt monto (utf8Len monto - 2)).map fun pd =>
        pe.1.filter (· ≠ ',') ++ '.' :: pd.2
  else some ((monto.filter (· ≠ '.')).map fun c => if c = ',' then '.' else c)

/-- `extraer_monto` (lines 141-189); `none` models a byte-boundary
panic in the decimal-splitting branches. -/
def extraer_monto (texto : Str) (p : Nat) : Option Str :=
  let texto := replaceAllBy (· == ·) '(' " $".toList "($".toList texto
  match findMontoCapture texto with
  | none => some (natStr (p + 1))
  | some cap =>
    let monto := (cap.filter (· ≠ '$')).filter (· ≠ ' ')
    let monto := stripTail monto
    if utf8Len monto < 3 then some monto else montoSep monto

/-- Identifier-noise strip of `extraer_numero_cheque` (line 193):
remove `.`, `-` and spaces. -/
def limpiarCheque (texto : Str) : Str :=
  texto.filter fun c => !(c == '.' || c == '-' || c == ' ')

/-- One iteration of the cheque-pattern loop (lines 197-211): a
capture of at least 8 *bytes* (`numero_str.len()`) is cut at byte
offset 8 (`&numero_str[..8]`, a panic when that offset splits a
multi-byte digit) and parsed; a missing capture, a short capture or a
parse failure falls through to the next pattern.  Outcomes:
`some (some r)` = early return `r`, `some none` = fall through,
`none` = byte-boundary panic. -/
def tryChequePat (pat : Str) (limpio : Str) : Option (Option Str) :=
  match findCapAfter pat limpio with
  | none => some none
  | some ds =>
    if 8 ≤ utf8Len ds then
      match byteSplitAt ds 8 with
      | none => none
      | some pr =>
        match parseU64 pr.1 with
        | some n => some (some ("CH ".toList ++ natStr n))
        | none => some none
    else some none

/-- The ordered `ChequeNro`/`ChequeN°` loop; a panic in the first
iteration pre-empts the second. -/
def chequeLoop (limpio : Str) : Option (Option Str) :=
  match tryChequePat "ChequeNro".toList limpio with
  | none => none
  | some (some r) => some (some r)
  | some none => tryChequePat "ChequeN°".toList limpio

/-- The `ITBNº:` branch (lines 214-222); no byte slicing happens here,
and the `u64` parse fails on overflow or on non-ASCII digits. -/
def itbBranch (limpio : Str) : Option Str :=
  (findCapAfter "ITBNº:".toList limpio).bind fun ds =>
    (parseU64 ds).map fun n => "ITB ".toList ++ natStr n

/-- The `INTERNO:` branch (lines 224-240): with a capture of more than
4 *bytes* (`numero_str.len() > 4`) the last 4 bytes are dropped
(`&numero_str[..len - 4]`, a panic when the offset splits a multi-byte
digit), and the literal `M.E.P.` in the original text decides `MEP`
versus `ITB`.  Outcomes encoded as in `tryChequePat`. -/
def internoBranch (texto limpio : Str) : Option (Option Str) :=
  match findCapAfter "INTERNO:".toList limpio with
  | none => some none
  | some ds =>
    if 4 < utf8Len ds then
      match byteSplitAt ds (utf8Len ds - 4) with
      | none => none
      | some pr =>
        match parseU64 pr.1 with
        | some n =>
          some (some ((if containsSub "M.E.P.".toList texto
            then "MEP ".toList else "ITB ".toList) ++ natStr n))
        | none => some none
    else some none

/-- `extraer_numero_cheque` (lines 192-243): the three pattern groups
are tried in order, each early `return` being a `some`; the positional
sentinel closes the chain; `none` models a byte-boundary panic inside
the cheque or INTERNO slicing. -/
def extraer_numero_cheque (texto : Str) (p : Nat) : Option Str :=
  match chequeLoop (limpiarCheque texto) with
  | none => none
  | some (some r) => some r
  | some none =>
  match itbBranch (limpiarCheque texto) with
  | some r => some r
  | none =>
  match internoBranch texto (limpiarCheque texto) with
  | none => none
  | some (some r) => some r
  | some none => some (natStr (p + 1))

/-- Rust `char::is_alphanumeric` (Unicode) restricted to the ranges
relevant here: ASCII alphanumerics; the Latin-1 letters U+00C0–U+00FF
without the two operators × (U+00D7) and ÷ (U+00F7); U+00AA/U+00BA
(ª, º) and U+00B5 (µ), which Unicode classes as letters; and the
`isNd` decimal digits (Nd is a subclass of alphanumeric).  Further
alphanumeric ranges exist but the theorems below do not depend on the
exact extent of the class. -/
def isUniAlphanum (c : Char) : Bool :=
  c.isAlphanum || (0xC0 ≤ c.toNat && c.toNat ≤ 0xFF &&
    !(c.toNat = 0xD7) && !(c.toNat = 0xF7)) ||
    c.toNat = 0xAA || c.toNat = 0xBA || c.toNat = 0xB5 || isNd c

/-- Rust `char::is_whitespace` (Unicode), restricted likewise:
the ASCII whitespace plus NEL (U+0085) and NBSP (U+00A0). -/
def isUniWhitespace (c : Char) : Bool :=
  c.isWhitespace || c.toNat = 0x85 || c.toNat = 0xA0

/-- Rust `char::is_ascii`. -/
def isAsciiChar (c : Char) : Bool := c.toNat ≤ 0x7F

/-- The character filter of the sanitization step (line 271). -/
def keepChar (c : Char) : Bool := isAsciiChar c || isUniAlphanum c || isUniWhitespace c

/-- The sanitization step of `procesar_pdf` (lines 268-272): replace
every newline by a space, then keep only characters that are ASCII,
alphanumeric or whitespace. -/
def sanitize (raw : Str) : Str :=
  (raw.map fun c => if c = '\n' then ' ' else c).filter keepChar

/-- The record built for one accepted page (`DatosPagina`,
lines 17-23). -/
structure DatosPagina where
  nombre : Str
  expediente : Str
  anio : Str
  monto : Str
  cheque : Str
deriving DecidableEq

/-- The page loop of `procesar_pdf` (lines 257-294).  The input is the
per-page outcome of the text-retrieval collaborator (`none` = the
page's text could not be retrieved and the page is skipped).  `p` is
the `enumerate` counter, which advances on every page of the document,
including skipped ones.  The result is `none` when some accepted
page's amount or payment-id extraction panics. -/
def procesarAux (p : Nat) (pages : List (Option Str)) : Option (List DatosPagina) :=
  match pages with
  | [] => some []
  | none :: rest => procesarAux (p + 1) rest
  | some raw :: rest =>
    let texto := sanitize raw
    if utf8Len texto < 500 then procesarAux (p + 1) rest
    else
      match extraer_monto texto p with
      | none => none
      | some monto =>
        match extraer_numero_cheque texto p with
        | none => none
        | some cheque =>
          let d : DatosPagina :=
            { nombre := extraer_texto_entre_comillas texto p
              expediente := (extraer_expediente_y_anio texto p).1
              anio := (extraer_expediente_y_anio texto p).2
              monto := monto
              cheque := cheque }
          (procesarAux (p + 1) rest).map (d :: ·)

/-- `procesar_pdf` after a successful document load, as a function of
the retrieved page texts. -/
def procesar_pdf (pages : List (Option Str)) : Option (List DatosPagina) :=
  procesarAux 0 pages

/-- Acceptance predicate of the skip policy: the page's text was
retrieved and its sanitized form has at least 500 bytes. -/
def aceptada : Option Str → Bool
  | none => false
  | some raw => !(utf8Len (sanitize raw) < 500)

theorem natStrGo_ne_nil : ∀ (fuel n : Nat) (acc : Str),
    fuel ≠ 0 ∨ acc ≠ [] → natStrGo fuel n acc ≠ [] := by
  intro fuel
  induction fuel with
  | zero => intro n acc h; simp [natStrGo]; tauto
  | succ fuel ih =>
    intro n acc _
    simp only [natStrGo]
    split
    · simp
    · exact ih (n / 10) (digitChar (n % 10) :: acc) (Or.inr (by simp))

theorem natStr_ne_nil (n : Nat) : natStr n ≠ [] :=
  natStrGo_ne_nil (n + 1) n [] (Or.inl (Nat.succ_ne_zero n))

theorem isPrefixOf_length_le {ps cs : Str} (h : ps.isPrefixOf cs = true) :
    ps.length ≤ cs.length := by
  induction ps generalizing cs with
  | nil => simp
  | cons p ps ih =>
    cases cs with
    | nil => simp [List.isPrefixOf] at h
    | cons c cs =>
      simp only [List.isPrefixOf, Bool.and_eq_true] at h
      simpa using ih h.2

theorem countSubGo_mul_le (p0 : Char) (ps : Str) :
    ∀ (fuel : Nat) (s : Str), countSubGo p0 ps fuel s * (1 + ps.length) ≤ s.length := by
  intro fuel
  induction fuel with
  | zero => intro s; cases s <;> simp [countSubGo]
  | succ fuel ih =>
    intro s
    cases s with
    | nil => simp [countSubGo]
    | cons c cs =>
      simp only [countSubGo]
      split
      · rename_i hcond
        have hpre : ps.isPrefixOf cs = true := (Bool.and_eq_true _ _ |>.mp hcond).2
        have hlen := isPrefixOf_length_le hpre
        have hdrop := ih (cs.drop ps.length)
        simp only [List.length_drop] at hdrop
        simp only [List.length_cons, Nat.add_mul, Nat.one_mul]
        generalize countSubGo p0 ps fuel (cs.drop ps.length) * (1 + ps.length) = K at hdrop ⊢
        omega
      · exact Nat.le_trans (ih cs) (by simp)

theorem replaceFirst_length_ge (p0 : Char) (ps : Str) :
    ∀ s : Str, s.length ≤ (replaceFirst p0 ps [] s).length + 1 + ps.length := by
  intro s
  induction s with
  | nil => simp
  | cons c cs ih =>
    simp only [replaceFirst]
    split
    · rename_i hcond
      have hpre : ps.isPrefixOf cs = true := (Bool.and_eq_true _ _ |>.mp hcond).2
      have hlen := isPrefixOf_length_le hpre
      simp only [List.nil_append, List.length_drop, List.length_cons]
      omega
    · simp only [List.length_cons]
      omega

theorem containsSub_ne_nil {pat s : Str} (h : containsSub pat s = true) : s ≠ [] := by
  cases s with
  | nil => simp [containsSub] at h
  | cons c cs => simp

theorem finalizarExp_ne_nil (e : Str) : finalizarExp e ≠ [] := by
  unfold finalizarExp
  split
  · rename_i hcount
    have h1 : countSub 'E' "XP-".toList e * (1 + ("XP-".toList).length) ≤ e.length :=
      countSubGo_mul_le 'E' "XP-".toList e.length e
    have h2 : 2 ≤ countSub 'E' "XP-".toList e := hcount
    have h3 : ("XP-".toList).length = 3 := by decide
    have h4 : 8 ≤ e.length := by rw [h3] at h1; nlinarith
    have h5 := replaceFirst_length_ge 'E' "XP-".toList e
    rw [h3] at h5
    have h6 : 4 ≤ (replaceFirst 'E' "XP-".toList [] e).length := by omega
    intro hnil
    rw [hnil] at h6
    simp at h6
  · split
    · simp
    · rename_i hcount hcontains
      have : containsSub "EXP-".toList e = true ∨ containsSub "EJF-".toList e = true := by
        by_contra hc
        push_neg at hc
        exact hcontains ⟨by simpa using hc.1, by simpa using hc.2⟩
      rcases this with h | h
      · exact containsSub_ne_nil h
      · exact containsSub_ne_nil h

theorem extraerAnio_snd_ne_nil (e : Str) : (extraerAnio e).2 ≠ [] := by
  unfold extraerAnio
  split
  · split
    · split
      · exact natStr_ne_nil _
      · simp
    · simp
  · simp

theorem tryChequePat_ne_nil {pat l r} (h : tryChequePat pat l = some (some r)) :
    r ≠ [] := by
  unfold tryChequePat at h
  split at h
  · simp at h
  · split at h
    · split at h
      · simp at h
      · split at h
        · simp only [Option.some.injEq] at h
          subst h
          simp
        · simp at h
    · simp at h

theorem chequeLoop_ne_nil {l r} (h : chequeLoop l = some (some r)) : r ≠ [] := by
  unfold chequeLoop at h
  split at h
  · simp at h
  · rename_i heq
    simp only [Option.some.injEq] at h
    subst h
    exact tryChequePat_ne_nil heq
  · exact tryChequePat_ne_nil h

theorem itbBranch_ne_nil {l r} (h : itbBranch l = some r) : r ≠ [] := by
  unfold itbBranch at h
  cases hf : findCapAfter "ITBNº:".toList l with
  | none => rw [hf] at h; cases h
  | some ds =>
    rw [hf, Option.some_bind] at h
    rw [Option.map_eq_some'] at h
    obtain ⟨n, _, rfl⟩ := h
    simp

theorem internoBranch_ne_nil {t l r} (h : internoBranch t l = some (some r)) :
    r ≠ [] := by
  unfold internoBranch at h
  split at h
  · simp at h
  · split at h
    · split at h
      · simp at h
      · split at h
        · simp only [Option.some.injEq] at h
          subst h
          split <;> simp
        · simp at h
    · simp at h

theorem extraer_numero_cheque_ne_nil (texto : Str) (p : Nat) :
    extraer_numero_cheque texto p ≠ some [] := by
  unfold extraer_numero_cheque
  split
  · simp
  · rename_i heq
    simpa using chequeLoop_ne_nil heq
  · split
    · rename_i heq
      simpa using itbBranch_ne_nil heq
    · split
      · simp
      · rename_i heq
        simpa using internoBranch_ne_nil heq
      · simpa using natStr_ne_nil (p + 1)

theorem extraer_expediente_fst_ne_nil (texto : Str) (p : Nat) :
    (extraer_expediente_y_anio texto p).1 ≠ [] := by
  rcases hb : buscarExpediente (normalizarExp texto) with _ | ⟨m, idx⟩ <;>
    simp only [extraer_expediente_y_anio, hb]
  · exact natStr_ne_nil _
  · exact finalizarExp_ne_nil _

theorem extraer_expediente_snd_ne_nil (texto : Str) (p : Nat) :
    (extraer_expediente_y_anio texto p).2 ≠ [] := by
  rcases hb : buscarExpediente (normalizarExp texto) with _ | ⟨m, idx⟩ <;>
    simp only [extraer_expediente_y_anio, hb]
  · simp
  · exact extraerAnio_snd_ne_nil _

theorem sanitize_no_newline {c : Char} {x : Str} (h : c ∈ sanitize x) : c ≠ '\n' := by
  unfold sanitize at h
  have h2 := List.mem_of_mem_filter h
  obtain ⟨a, _, rfl⟩ := List.mem_map.mp h2
  by_cases ha : a = '\n' <;> simp [ha]

theorem procesarAux_length :
    ∀ (pages : List (Option Str)) (p : Nat) (l : List DatosPagina),
      procesarAux p pages = some l → l.length = pages.countP aceptada := by
  intro pages
  induction pages with
  | nil =>
    intro p l h
    simp only [procesarAux, Option.some.injEq] at h
    subst h
    simp
  | cons x rest ih =>
    intro p l h
    cases x with
    | none =>
      simp only [procesarAux] at h
      rw [List.countP_cons_of_neg _ _ (by simp [aceptada])]
      exact ih (p + 1) l h
    | some raw =>
      simp only [procesarAux] at h
      split at h
      · rename_i hlt
        rw [List.countP_cons_of_neg _ _ (by simp [aceptada]; exact hlt)]
        exact ih (p + 1) l h
      · rename_i hge
        split at h
        · cases h
        · split at h
          · cases h
          · rw [Option.map_eq_some'] at h
            obtain ⟨t, ht, rfl⟩ := h
            rw [List.countP_cons_of_pos _ _ (by simp [aceptada]; omega)]
            simp [ih (p + 1) t ht]

/-- Claim C9: the sanitization function (newlines to spaces, then keep
only ASCII, alphanumeric or whitespace characters) is idempotent:
`sanitize (sanitize x) = sanitize x` for every input string. -/
theorem C9_sanitize_idempotent (x : Str) : sanitize (sanitize x) = sanitize x := by
  have hmap : (sanitize x).map (fun c => if c = '\n' then ' ' else c) = sanitize x := by
    have := List.map_congr_left (l := sanitize x)
      (f := fun c => if c = '\n' then ' ' else c) (g := id)
      (fun c hc => by simp [sanitize_no_newline hc])
    simpa using this
  have hfil : (sanitize x).filter keepChar = sanitize x :=
    List.filter_eq_self.mpr fun c hc => by
      unfold sanitize at hc
      exact List.of_mem_filter hc
  show ((sanitize x).map _).filter keepChar = sanitize x
  rw [hmap, hfil]

theorem procesarAux_skip {x : Option Str} (hx : aceptada x = false) (p : Nat)
    (rest : List (Option Str)) : procesarAux p (x :: rest) = procesarAux (p + 1) rest := by
  cases x with
  | none => simp [procesarAux]
  | some raw =>
    have hlt : utf8Len (sanitize raw) < 500 := by
      simp [aceptada] at hx
      exact hx
    simp [procesarAux, hlt]

theorem procesarAux_skipAll :
    ∀ (pre : List (Option Str)), (∀ x ∈ pre, aceptada x = false) →
      ∀ (p : Nat) (rest : List (Option Str)),
        procesarAux p (pre ++ rest) = procesarAux (p + pre.length) rest := by
  intro pre
  induction pre with
  | nil => intro _ p rest; simp
  | cons x xs ih =>
    intro hpre p rest
    rw [List.cons_append, procesarAux_skip (hpre x (by simp)) p (xs ++ rest),
      ih (fun y hy => hpre y (by simp [hy])) (p + 1) rest]
    congr 1
    simp
    omega

/-- A 1-character page: sanitized length 1, rejected by the 500-byte
gate. -/
def pagCorta : Str := ['x']

/-- A 500-character page of plain letters: accepted by the gate, and no
extraction pattern matches anywhere in it. -/
def pagLarga : Str := List.replicate 500 'a'

/-- Claim C2, amended: when every page before the given one is skipped
(text unavailable or under the 500-byte gate) and the accepted page has
no case-reference match, the case-reference sentinel of the first
record is `pre.length + 1` — one more than the page's 0-based position
in the *full* document page sequence (skipped pages included), not its
1-based ordinal within the filtered sequence of accepted pages (which
here would always be 1). -/
theorem C2_amended_sentinel (pre post : List (Option Str)) (raw : Str)
    (l : List DatosPagina)
    (hpre : ∀ x ∈ pre, aceptada x = false)
    (hlen : ¬ utf8Len (sanitize raw) < 500)
    (hmiss : buscarExpediente (normalizarExp (sanitize raw)) = none)
    (hl : procesar_pdf (pre ++ some raw :: post) = some l) :
    l.head?.map DatosPagina.expediente = some (natStr (pre.length + 1)) := by
  unfold procesar_pdf at hl
  rw [procesarAux_skipAll pre hpre 0 (some raw :: post)] at hl
  simp only [procesarAux] at hl
  rw [if_neg hlen] at hl
  split at hl
  · cases hl
  · split at hl
    · cases hl
    · rw [Option.map_eq_some'] at hl
      obtain ⟨t, _, rfl⟩ := hl
      simp only [List.head?_cons, Option.map_some']
      simp only [extraer_expediente_y_anio, hmiss]
      rw [Nat.zero_add]

/-- Claim C2 counterexample: a 2-page document whose first page is
under the length gate.  The only accepted page is the first of the
filtered sequence, so the claim predicts sentinel `"1"`; the code
numbers it by its position in the original document and yields `"2"`. -/
theorem C2_counterexample :
    (procesar_pdf [some pagCorta, some pagLarga]).map (List.map DatosPagina.expediente)
        = some [['2']]
      ∧ (some [['2']] : Option (List Str)) ≠ some [['1']] := by
  constructor
  · decide
  · decide

/-- Claim C2 witness: the amended sentinel theorem applied to the
2-page document of the counterexample. -/
theorem C2_amended_sentinel_witness :
    ([⟨['2'], ['2'], [' '], ['2'], ['2']⟩] : List DatosPagina).head?.map
        DatosPagina.expediente
      = some (natStr (([some pagCorta] : List (Option Str)).length + 1)) :=
  C2_amended_sentinel [some pagCorta] [] pagLarga
    [⟨['2'], ['2'], [' '], ['2'], ['2']⟩]
    (by decide) (by decide) (by decide) (by decide)

/-- Claim C8, amended: the length gate is on the UTF-8 *byte* length
of the sanitized text (Rust `texto.len()`), not its character count.
Whenever the document loop completes, its output has one record per
accepted page: pages whose text retrieval fails or whose sanitized
text is under 500 bytes contribute nothing, every other page
contributes exactly one record (the count over any page list equals
the number of accepted pages). -/
theorem C8_skip_policy (pages : List (Option Str)) (l : List DatosPagina)
    (h : procesar_pdf pages = some l) : l.length = pages.countP aceptada :=
  procesarAux_length pages 0 l h

/-- Claim C8 witness: a document with one under-length page and one
failed retrieval produces an empty record sequence. -/
theorem C8_skip_policy_witness :
    ([] : List DatosPagina).length
      = ([some pagCorta, none] : List (Option Str)).countP aceptada :=
  C8_skip_policy [some pagCorta, none] [] (by decide)

/-- A 499-character page whose first character is the two-byte letter
á: 499 characters but 500 UTF-8 bytes after sanitization. -/
def pagMultibyte : Str := 'á' :: List.replicate 498 'a'

/-- Claim C8 counterexample: the claim reads the 500 threshold as a
*character* count, but the code gates `texto.len()`, a byte count.
This page has sanitized length 499 characters — under the claimed
gate, so it should contribute no record — yet its 500 bytes pass the
code's gate and exactly one record is emitted. -/
theorem C8_counterexample :
    (sanitize pagMultibyte).length = 499
      ∧ (sanitize pagMultibyte).length < 500
      ∧ utf8Len (sanitize pagMultibyte) = 500
      ∧ (procesar_pdf [some pagMultibyte]).map List.length = some 1 := by
  refine ⟨?_, ?_, ?_, ?_⟩ <;> decide

/-- Claim C6: on the input `"Expediente 1234/2020,"` the
case-reference/year extractor normalizes `Expediente` to `EXP-`,
matches the `EXP-…,`-pattern, and returns case reference `EXP-1234`
and year `2020`, for every page ordinal (the ordinal only feeds the
miss path). -/
theorem C6_confirmed_eval (p : Nat) :
    extraer_expediente_y_anio "Expediente 1234/2020,".toList p
      = ("EXP-1234".toList, "2020".toList) := rfl

/-- Claim C4 counterexample: on `"(  $1,234.56)"` — two spaces after
the parenthesis — the claimed result is `"1234.56"`, but the
normalization only rewrites the single-space form `"( $"`, so the
`($…)` pattern finds no match and the extractor returns the positional
sentinel (`"1"` on the first page). -/
theorem C4_counterexample :
    extraer_monto "(  $1,234.56)".toList 0 = some ['1']
      ∧ (some ['1'] : Option Str) ≠ some "1234.56".toList := by
  constructor
  · decide
  · decide

/-- Claim C4, amended: the two-space input falls through to the
sentinel; with a single stray space (the case the normalization
actually covers) and on the three other quoted inputs the amount
extractor returns the claimed values. -/
theorem C4_amended_eval :
    extraer_monto "(  $1,234.56)".toList 0 = some (natStr 1)
      ∧ extraer_monto "( $1,234.56)".toList 0 = some "1234.56".toList
      ∧ extraer_monto "($1.234.567)".toList 0 = some "1234567".toList
      ∧ extraer_monto "($1.234.567.89)".toList 0 = some "1234567.89".toList
      ∧ extraer_monto "($45.-)".toList 0 = some "45".toList := by
  refine ⟨?_, ?_, ?_, ?_, ?_⟩ <;> decide

/-- Claim C5 counterexample: on text containing `INTERNO:000012349999`
and `M.E.P.`, the claim predicts `"MEP 00001234"` (the digit prefix
kept verbatim), but the code parses the prefix as a `u64` and formats
the numeric value, so the leading zeros are lost: it returns
`"MEP 1234"`. -/
theorem C5_counterexample :
    extraer_numero_cheque "M.E.P. INTERNO:000012349999".toList 0
        = some "MEP 1234".toList
      ∧ "MEP 1234".toList ≠ "MEP 00001234".toList := by
  constructor
  · decide
  · decide

/-- Claim C5, amended: when neither cheque pattern produced a result
(no panic, no return), no ITB match fired, and `INTERNO:(\d+)` — with
`\d` the Unicode digit class — captures a run of more than 4 *bytes*,
the last 4 *bytes* are dropped (a byte split that panics when the
offset lands inside a multi-byte digit); provided that split succeeds
and the remaining prefix parses as a `u64` (ASCII digits only), the
result is `MEP ` or `ITB ` (by presence of `M.E.P.` in the original
text) followed by the *decimal value* of the prefix, i.e. with leading
zeros removed. -/
theorem C5_amended_interno (texto : Str) (p : Nat) (ds pre suf : Str) (n : Nat)
    (h1 : chequeLoop (limpiarCheque texto) = some none)
    (h2 : itbBranch (limpiarCheque texto) = none)
    (h3 : findCapAfter "INTERNO:".toList (limpiarCheque texto) = some ds)
    (h4 : 4 < utf8Len ds)
    (h5 : byteSplitAt ds (utf8Len ds - 4) = some (pre, suf))
    (h6 : parseU64 pre = some n) :
    extraer_numero_cheque texto p
      = some ((if containsSub "M.E.P.".toList texto
          then "MEP ".toList else "ITB ".toList) ++ natStr n) := by
  simp only [String.toList] at h3
  simp [extraer_numero_cheque, internoBranch, h1, h2, h3, h4, h5, h6]

/-- Claim C5 witness: the amended theorem applied at the
counterexample input, yielding `MEP 1234`. -/
theorem C5_amended_interno_witness :
    extraer_numero_cheque "M.E.P. INTERNO:000012349999".toList 0
      = some ((if containsSub "M.E.P.".toList "M.E.P. INTERNO:000012349999".toList
          then "MEP ".toList else "ITB ".toList) ++ natStr 1234) :=
  C5_amended_interno "M.E.P. INTERNO:000012349999".toList 0
    "000012349999".toList "00001234".toList "9999".toList 1234
    (by decide) (by decide) (by decide) (by decide) (by decide) (by decide)

/-- Claim C7 counterexample: the truncation step leaves a 26-character
match unchanged (the code truncates only matches longer than 30
characters), so the text after the step is not bounded by 25. -/
theorem C7_counterexample :
    acortarExp (List.replicate 26 'A') = List.replicate 26 'A'
      ∧ ¬ (acortarExp (List.replicate 26 'A')).length ≤ 25 := by
  constructor
  · decide
  · decide

/-- Claim C7, amended: the truncation step cuts a match of more than
30 characters to its first 25; consequently its output is at most 30
characters long (not 25: matches of 26–30 characters pass through
unchanged). -/
theorem C7_amended_trunc (e : Str) :
    (acortarExp e).length ≤ 30 ∧ (30 < e.length → acortarExp e = e.take 25) := by
  constructor
  · unfold acortarExp
    split
    · simp
    · omega
  · intro h
    unfold acortarExp
    rw [if_pos h]

/-- Claim C7 witness: the amended theorem applied to a 31-character
match, which is truncated to its first 25 characters. -/
theorem C7_amended_trunc_witness :
    (acortarExp (List.replicate 31 'A')).length ≤ 30
      ∧ acortarExp (List.replicate 31 'A') = (List.replicate 31 'A').take 25 :=
  ⟨(C7_amended_trunc (List.replicate 31 'A')).1,
    (C7_amended_trunc (List.replicate 31 'A')).2 (by decide)⟩

/-- Claim C3 counterexample: two extractors can return the empty
string — the name extractor when the first quoted match after `autos`
is itself empty, and the amount extractor when the parenthesized
amount reduces to nothing after stripping (`($$)`). -/
theorem C3_counterexample :
    extraer_texto_entre_comillas "autos \"\" x".toList 0 = []
      ∧ extraer_monto "($$)".toList 0 = some [] := by
  constructor
  · decide
  · decide

/-- Claim C3, amended: the case-reference, year and payment-id fields
are never empty (the year's no-value marker being the single space),
but the name and amount fields can be empty on degenerate matches
(the payment-id result is stated through its `Option`, whose `none`
is the byte-boundary panic of the cheque/INTERNO slices: whenever the
extractor returns normally, its value is non-empty). -/
theorem C3_amended_nonempty (texto : Str) (p : Nat) :
    (extraer_expediente_y_anio texto p).1 ≠ []
      ∧ (extraer_expediente_y_anio texto p).2 ≠ []
      ∧ extraer_numero_cheque texto p ≠ some [] :=
  ⟨extraer_expediente_fst_ne_nil texto p, extraer_expediente_snd_ne_nil texto p,
    extraer_numero_cheque_ne_nil texto p⟩

/-- Claim C10: the amount extractor panics on an amount whose third
character from the end is a separator but whose byte split point falls
inside a multi-byte character: `($1,2,á9)` survives sanitization
unchanged (á is alphanumeric) and drives `extraer_monto` into the
decimal-splitting branch, where slicing `"1,2,á9"` at byte offset 5
hits the middle of `á` — modelled as `none`. -/
theorem C10_panic_eval :
    sanitize "($1,2,á9)".toList = "($1,2,á9)".toList
      ∧ extraer_monto "($1,2,á9)".toList 0 = none := by
  constructor
  · decide
  · decide

theorem utf8Len_append (a b : Str) : utf8Len (a ++ b) = utf8Len a + utf8Len b := by
  induction a with
  | nil => simp [utf8Len]
  | cons c cs ih => simp [utf8Len, ih]; omega

theorem utf8Len_all_one {l : Str} (h : ∀ c ∈ l, c.utf8Size = 1) :
    utf8Len l = l.length := by
  induction l with
  | nil => simp [utf8Len]
  | cons c cs ih =>
    simp only [utf8Len, List.length_cons, h c (by simp)]
    rw [ih fun d hd => h d (by simp [hd])]
    omega

theorem byteSplitAt_cons_of_le (c : Char) (cs : Str) {n : Nat} (h0 : 0 < n)
    (hle : c.utf8Size ≤ n) :
    byteSplitAt (c :: cs) n
      = (byteSplitAt cs (n - c.utf8Size)).map (fun pr => (c :: pr.1, pr.2)) := by
  cases n with
  | zero => omega
  | succ n => simp only [byteSplitAt, if_pos hle]

theorem byteSplitAt_exact :
    ∀ (s : Str) (k : Nat), k ≤ s.length →
      byteSplitAt s (utf8Len (s.take k)) = some (s.take k, s.drop k) := by
  intro s
  induction s with
  | nil =>
    intro k hk
    have hk0 : k = 0 := by simpa using hk
    subst hk0
    simp [byteSplitAt, utf8Len]
  | cons c cs ih =>
    intro k hk
    cases k with
    | zero => simp [byteSplitAt, utf8Len]
    | succ k =>
      have hk2 : k ≤ cs.length := by simpa using hk
      have hpos := Char.utf8Size_pos c
      rw [List.take_succ_cons]
      rw [show utf8Len (c :: cs.take k) = c.utf8Size + utf8Len (cs.take k) from rfl]
      rw [byteSplitAt_cons_of_le c cs (by omega) (by omega)]
      rw [show c.utf8Size + utf8Len (cs.take k) - c.utf8Size = utf8Len (cs.take k) by omega]
      rw [ih k hk2]
      simp

theorem montoSep_split_branch (m : Str) (x : Char) (h3 : 3 ≤ m.length)
    (hb : ∀ c ∈ m.drop (m.length - 2), c.utf8Size = 1)
    (hx : m.getD (m.length - 3) ' ' = x) (hx1 : x.utf8Size = 1) :
    ((byteSplitAt m (utf8Len m - 3)).bind fun pe =>
      (byteSplitAt m (utf8Len m - 2)).map fun pd =>
        pe.1.filter (· ≠ x) ++ '.' :: pd.2)
    = some ((m.take (m.length - 2)).filter (· ≠ x) ++ '.' :: m.drop (m.length - 2)) := by
  have hlt : m.length - 3 < m.length := by omega
  have hgetx : ∀ hh : m.length - 3 < m.length, m.get ⟨m.length - 3, hh⟩ = x := by
    intro hh
    rw [List.get_eq_getElem, ← List.getD_eq_getElem m ' ' hh]
    exact hx
  have hdrop3 : m.drop (m.length - 3) = x :: m.drop (m.length - 2) := by
    rw [List.drop_eq_getElem_cons hlt, show m.length - 3 + 1 = m.length - 2 by omega]
    congr 1
    exact hgetx hlt
  have htake2 : m.take (m.length - 2) = m.take (m.length - 3) ++ [x] := by
    rw [show m.length - 2 = m.length - 3 + 1 by omega, List.take_succ,
      List.getElem?_eq_getElem hlt]
    simp only [Option.toList_some]
    congr 2
    exact hgetx hlt
  have hdl : (m.drop (m.length - 2)).length = 2 := by rw [List.length_drop]; omega
  have hu2 : utf8Len (m.drop (m.length - 2)) = 2 := by rw [utf8Len_all_one hb, hdl]
  have hu3 : utf8Len (m.drop (m.length - 3)) = 3 := by
    rw [hdrop3]
    show x.utf8Size + utf8Len (m.drop (m.length - 2)) = 3
    rw [hx1, hu2]
  have hsum3 : utf8Len m = utf8Len (m.take (m.length - 3)) + 3 := by
    conv_lhs => rw [← List.take_append_drop (m.length - 3) m]
    rw [utf8Len_append, hu3]
  have hsum2 : utf8Len m = utf8Len (m.take (m.length - 2)) + 2 := by
    conv_lhs => rw [← List.take_append_drop (m.length - 2) m]
    rw [utf8Len_append, hu2]
  rw [show utf8Len m - 3 = utf8Len (m.take (m.length - 3)) by omega,
    byteSplitAt_exact m (m.length - 3) (by omega),
    show utf8Len m - 2 = utf8Len (m.take (m.length - 2)) by omega,
    byteSplitAt_exact m (m.length - 2) (by omega)]
  simp only [Option.some_bind, Option.map_some', Option.some.injEq]
  rw [htake2, List.filter_append]
  simp

/-- Spec-side rendering of the four-way separator-disambiguation rule
of claim C1, written at character level exactly as the spec words it:
(1) third-from-last `.` and several `.` → keep the last two characters
as decimals after a `.`, delete every `.` from the part before them;
(2) third-from-last `.` and exactly one `.` → delete all `,`;
(3) third-from-last `,` and several `,` → the two-decimal rule with
`,` deleted from the part before; (4) otherwise delete all `.` and
turn every remaining `,` into `.`. -/
def specSeparacion (m : Str) : Str :=
  let tercero := m.getD (m.length - 3) ' '
  let numPuntos := m.countP (· = '.')
  let numComas := m.countP (· = ',')
  if tercero = '.' ∧ 1 < numPuntos then
    (m.take (m.length - 2)).filter (· ≠ '.') ++ '.' :: m.drop (m.length - 2)
  else if tercero = '.' ∧ numPuntos = 1 then
    m.filter (· ≠ ',')
  else if tercero = ',' ∧ 1 < numComas then
    (m.take (m.length - 2)).filter (· ≠ ',') ++ '.' :: m.drop (m.length - 2)
  else
    (m.filter (· ≠ '.')).map fun c => if c = ',' then '.' else c

/-- Claim C1, amended: on every amount string of at least 3 characters
reaching the separator-disambiguation step, *provided the two final
characters are single-byte* (so the byte offsets `len-2`/`len-3` are
character boundaries), the code follows exactly the four-way branch
the claim describes and produces its character-level result.  Without
that proviso the two decimal-splitting branches panic
(see the counterexample). -/
theorem C1_amended_sep (m : Str) (h3 : 3 ≤ m.length)
    (hb : ∀ c ∈ m.drop (m.length - 2), c.utf8Size = 1) :
    montoSep m = some (specSeparacion m) := by
  have hmem : m.getD (m.length - 3) ' ' ∈ m := by
    have hlt : m.length - 3 < m.length := by omega
    rw [List.getD_eq_getElem m ' ' hlt]
    exact List.getElem_mem hlt
  simp only [montoSep, specSeparacion]
  by_cases h1 : m.getD (m.length - 3) ' ' = '.' ∧ 1 < m.countP (· = '.')
  · rw [if_pos h1, if_pos h1]
    exact montoSep_split_branch m '.' h3 hb h1.1 (by decide)
  · rw [if_neg h1, if_neg h1]
    by_cases h2 : m.getD (m.length - 3) ' ' = '.'
    · have hpos : 0 < m.countP (· = '.') :=
        List.countP_pos_iff.mpr ⟨m.getD (m.length - 3) ' ', hmem, by rw [h2]; rfl⟩
      have hnp : m.countP (· = '.') = 1 := by
        rcases Nat.lt_or_ge 1 (m.countP (· = '.')) with hgt | hle
        · exact absurd ⟨h2, hgt⟩ h1
        · omega
      rw [if_pos h2, if_pos ⟨h2, hnp⟩]
    · rw [if_neg h2,
        if_neg (fun hc : m.getD (m.length - 3) ' ' = '.' ∧ m.countP (· = '.') = 1 =>
          h2 hc.1)]
      by_cases h4 : m.getD (m.length - 3) ' ' = ',' ∧ 1 < m.countP (· = ',')
      · rw [if_pos h4, if_pos h4]
        exact montoSep_split_branch m ',' h3 hb h4.1 (by decide)
      · rw [if_neg h4, if_neg h4]

/-- Claim C1 counterexample: the amount string `1.2.á9` (reachable
from page text `($1.2.á9)`, á being alphanumeric and surviving
sanitization) satisfies the branch-(1) condition, but the code slices
at byte offset `len-2`, which falls inside `á`: it panics (`none`)
instead of returning the string the claim describes. -/
theorem C1_counterexample :
    montoSep "1.2.á9".toList = none
      ∧ specSeparacion "1.2.á9".toList = "12.á9".toList
      ∧ montoSep "1.2.á9".toList ≠ some (specSeparacion "1.2.á9".toList) := by
  refine ⟨?_, ?_, ?_⟩ <;> decide

/-- Claim C1 witness: the amended theorem applied to the spec's own
example `1.234.567.89` (branch 1). -/
theorem C1_amended_sep_witness :
    montoSep "1.234.567.89".toList = some (specSeparacion "1.234.567.89".toList) :=
  C1_amended_sep "1.234.567.89".toList (by decide) (by decide)
